import Mathlib

/-!
Verification development for `split_schema.py`: a script that splits a
monolithic GraphQL schema document into per-category files.

The script is shallow-embedded below.  Text is modelled as `List Char`
(Python `str`); Python's `str.strip`, `str.startswith`, substring tests
(`in`), `str.rfind`, `re.search` with the concrete anchored patterns of
`FILE_MAPPINGS`, and `re.split` with the concrete block-boundary lookahead
are each translated into executable Lean functions.  Word characters for
the regex `\b` and `\w` classes are modelled as ASCII alphanumerics plus
underscore (all schema text handled by the script is ASCII).
-/

/-- Python `str.strip` whitespace set (ASCII part, which also coincides with
the ASCII part of the regex class `\s`). -/
def pyIsSpace (c : Char) : Bool :=
  c = ' ' || c = '\t' || c = '\n' || c = '\r' || c = '\x0b' || c = '\x0c'

/-- Python `block.strip()`. -/
def strip (cs : List Char) : List Char :=
  ((cs.dropWhile pyIsSpace).reverse.dropWhile pyIsSpace).reverse

/-- Regex word character (`\w`), ASCII fragment. -/
def isWordChar (c : Char) : Bool :=
  c.isAlphanum || c = '_'

/-- The three shapes of regex occurring in `FILE_MAPPINGS`:
`^literal`, `^literal\b`, and `^type .*literal`.  All are anchored by `^`
to the absolute start of the block (Python `re.search` without
`re.MULTILINE`). -/
inductive Pat where
  | lit : String → Pat
  | litWB : String → Pat
  | typeStar : String → Pat
deriving DecidableEq

/-- `\b` immediately after position `n`: the next character (if any) is not a
word character.  (The character before position `n` is always a word
character for the patterns in the table, so this is the whole test.) -/
def wbAfter (n : Nat) (cs : List Char) : Bool :=
  match cs.drop n with
  | [] => true
  | c :: _ => !isWordChar c

/-- `.*needle` matched against `cs`: some newline-free prefix of `cs` is
followed by `needle`. -/
def dotStarThen (needle : List Char) : List Char → Bool
  | [] => needle.isPrefixOf []
  | c :: cs => needle.isPrefixOf (c :: cs) || (!(c == '\n') && dotStarThen needle cs)

/-- Python's substring test `needle in hay`. -/
def inStr (needle : List Char) : List Char → Bool
  | [] => needle.isPrefixOf []
  | c :: cs => needle.isPrefixOf (c :: cs) || inStr needle cs

/-- `re.search(pat, block)` for the three pattern shapes (the `^` anchor
means a match can only start at position 0). -/
def patMatch (p : Pat) (block : List Char) : Bool :=
  match p with
  | .lit s => s.data.isPrefixOf block
  | .litWB s => s.data.isPrefixOf block && wbAfter s.data.length block
  | .typeStar s => "type ".data.isPrefixOf block && dotStarThen s.data (block.drop 5)

/-- The `FILE_MAPPINGS` dict of the script (insertion order preserved). -/
def FILE_MAPPINGS : List (String × List Pat) := [
  ("10-entities.graphql", [.litWB "type Entity", .litWB "type BackgroundTask"]),
  ("20-venues.graphql", [.litWB "type Venue", .litWB "type VenueDetails",
    .litWB "type VenueMetricsResult", .litWB "type VenueMetricsPreview",
    .lit "input RecalculateVenueDetails"]),
  ("30-games.graphql", [.litWB "type Game", .lit "type GameCost",
    .lit "type GameFinancialSnapshot", .lit "type TournamentStructure",
    .lit "type TournamentLevelData", .lit "type CashStructure",
    .lit "type RakeStructure", .lit "type Consolidation",
    .lit "input SaveGame", .lit "input GamePreview"]),
  ("40-tournaments.graphql", [.lit "type TournamentSeries"]),
  ("50-players.graphql", [.lit "type Player", .lit "type KnownPlayerIdentity",
    .lit "type Ticket", .lit "type MarketingMessage", .lit "type PlayerMarketing"]),
  ("60-financials.graphql", [.lit "type CostItem", .lit "type GameCostLineItem"]),
  ("80-scrapers.graphql", [.lit "type Scraper", .lit "type Scrape", .lit "type S3",
    .lit "type DataSync", .lit "input Scrape", .lit "input SaveTournament",
    .lit "type Gap", .lit "type CachingStats"]),
  ("85-social.graphql", [.lit "type Social", .lit "input Social",
    .lit "input AddSocial", .lit "input UpdateSocial", .lit "input SchedulePost"]),
  ("90-staff.graphql", [.lit "type User", .lit "type Staff", .lit "type Asset",
    .lit "input CreateUser", .lit "input UpdateUser"]),
  ("99-mutations.graphql", [.lit "type Query", .lit "type Mutation",
    .lit "type Subscription", .typeStar "Response", .typeStar "Connection"])
]

/-- Does any pattern of the list match the block (inner `for pat in patterns`
loop; the first match breaks out of both loops, and the assigned category is
all that is observable of that). -/
def anyMatch (pats : List Pat) (block : List Char) : Bool :=
  pats.any (fun p => patMatch p block)

/-- The classifier double loop: first category (in `FILE_MAPPINGS` order)
one of whose patterns matches the block. -/
def classify (block : List Char) : Option String :=
  (FILE_MAPPINGS.find? (fun kv => anyMatch kv.2 block)).map (fun kv => kv.1)

/-- `GAME_ADDITIONS` string of the script, byte for byte. -/
def GAME_ADDITIONS : String :=
  "\n  # === RECURRING GAME RELATIONSHIP (NEW) ===\n  # Link to the canonical recurring game (if this is a regular game instance)\n  recurringGameId: ID \n    @index(name: \"byRecurringGame\", sortKeyFields: [\"gameStartDateTime\"])\n  recurringGame: RecurringGame @belongsTo(fields: [\"recurringGameId\"])\n  \n  # === RECURRING GAME ASSIGNMENT (NEW) ===\n  recurringGameAssignmentConfidence: Float\n  recurringGameAssignmentStatus: RecurringGameAssignmentStatus \n    @default(value: \"PENDING_ASSIGNMENT\")\n  \n  # === SCHEDULE TRACKING (NEW) ===\n  wasScheduledInstance: Boolean @default(value: \"false\")\n  deviationNotes: String\n  \n  # === INSTANCE METADATA (NEW) ===\n  instanceNumber: Int \n  isReplacementInstance: Boolean @default(value: \"false\")\n  replacementReason: String\n"

def SOURCE_FILE : String := "amplify/backend/api/kingsroom/schema.graphql"

def OUTPUT_DIR : String := "amplify/backend/api/kingsroom/schema"

/-- Python `block.rfind('}')`: index of the last `'\x7d'`, `none` for the
script's `-1`. -/
def lastBraceIdx : List Char → Option Nat
  | [] => none
  | c :: cs =>
    match lastBraceIdx cs with
    | some i => some (i + 1)
    | none => if c = '}' then some 0 else none

/-- `block[:idx] + GAME_ADDITIONS + block[idx:]` when a closing brace exists,
the block unchanged otherwise (lines 147-150 of the script). -/
def patchGame (block : List Char) : List Char :=
  match lastBraceIdx block with
  | none => block
  | some i => block.take i ++ GAME_ADDITIONS.data ++ block.drop i

/-- The `files_content` dict: category name → list of appended block texts,
in insertion order. -/
abbrev Files : Type := List (String × List String)

/-- `files_content[filename].append(b)`. -/
def appendTo (fs : Files) (name : String) (b : String) : Files :=
  fs.map (fun kv => if kv.1 = name then (kv.1, kv.2 ++ [b]) else kv)

/-- Read a category's current block list (empty for an absent key). -/
def lookupList (fs : Files) (name : String) : List String :=
  match fs.find? (fun kv => kv.1 == name) with
  | some kv => kv.2
  | none => []

/-- `files_content = {k: [] for k in FILE_MAPPINGS.keys()}` followed by
`files_content["00-enums.graphql"] = []`. -/
def initFiles : Files :=
  FILE_MAPPINGS.map (fun kv => (kv.1, ([] : List String))) ++ [("00-enums.graphql", [])]

/-- One iteration of the `for block in blocks` loop (lines 129-163):
strip, skip empty, skip `enum ` blocks, classify, patch the Game type when
classified into `30-games.graphql` with the marker present, else fall back
to the keyword heuristics. -/
def processBlock (fs : Files) (rawBlock : List Char) : Files :=
  let block := strip rawBlock
  if block.isEmpty then fs
  else if "enum ".data.isPrefixOf block then fs
  else
    match classify block with
    | some filename =>
      let block2 :=
        if inStr "type Game @model".data block && filename = "30-games.graphql" then
          patchGame block
        else block
      appendTo fs filename (String.mk block2)
    | none =>
      if inStr "Game".data block then appendTo fs "30-games.graphql" (String.mk block)
      else if inStr "Player".data block then appendTo fs "50-players.graphql" (String.mk block)
      else if inStr "Venue".data block then appendTo fs "20-venues.graphql" (String.mk block)
      else appendTo fs "99-mutations.graphql" (String.mk block)

/-- The whole classification loop over an extracted block list. -/
def runBlocks (bs : List (List Char)) : Files :=
  bs.foldl processBlock initFiles

/-- Greedy `(?:#.*\n)*`: consume complete comment lines.  (Backtracking into
fewer iterations can never help: `\s*` cannot consume `'#'` and no
declaration keyword starts with `'#'`.)  The recursion is fuelled by the
length of the text; each iteration consumes at least two characters, so the
fuel never runs out. -/
def eatCommentsF : Nat → List Char → List Char
  | 0, cs => cs
  | Nat.succ n, cs =>
    match cs with
    | '#' :: rest =>
      match rest.dropWhile (fun c => !(c == '\n')) with
      | '\n' :: rest2 => eatCommentsF n rest2
      | _ => cs
    | _ => cs

def eatComments (cs : List Char) : List Char :=
  eatCommentsF cs.length cs

/-- The alternation `(?:type|input|enum|interface|union|scalar)` (no keyword
is a prefix of another, so at most one alternative can match); returns the
rest of the text after the keyword. -/
def declKwTail (cs : List Char) : Option (List Char) :=
  if "type".data.isPrefixOf cs then some (cs.drop 4)
  else if "input".data.isPrefixOf cs then some (cs.drop 5)
  else if "enum".data.isPrefixOf cs then some (cs.drop 4)
  else if "interface".data.isPrefixOf cs then some (cs.drop 9)
  else if "union".data.isPrefixOf cs then some (cs.drop 5)
  else if "scalar".data.isPrefixOf cs then some (cs.drop 6)
  else none

/-- The zero-width split lookahead
`(?=\n(?:#.*\n)*\s*(?:type|input|enum|interface|union|scalar)\s+\w+)`
tested at the start of `cs` (line 121 of the script). -/
def declLookahead (cs : List Char) : Bool :=
  match cs with
  | '\n' :: rest =>
    let afterC := eatComments rest
    let afterS := afterC.dropWhile pyIsSpace
    match declKwTail afterS with
    | some tl =>
      !(tl.takeWhile pyIsSpace).isEmpty &&
        (match (tl.dropWhile pyIsSpace).head? with
         | some c => isWordChar c
         | none => false)
    | none => false
  | _ => false

/-- `re.split` with a zero-width lookahead pattern: every position where the
lookahead matches becomes a split point (after a zero-width match the scan
resumes one character later, so adjacent matching positions all split). -/
def goSplit (acc : List Char) : List Char → List (List Char)
  | [] => [acc.reverse]
  | c :: cs =>
    if declLookahead (c :: cs) then acc.reverse :: goSplit [c] cs
    else goSplit (c :: acc) cs

/-- `blocks = re.split(pattern, content)` (line 122). -/
def splitBlocks (content : List Char) : List (List Char) :=
  goSplit [] content

/-- The text written for one category file (lines 171-173): header line,
banner line, blank line, blocks joined by blank lines. -/
def writeContent (filename : String) (blocks : List String) : String :=
  "# " ++ filename ++ "\n# ==========================================\n\n" ++
    String.intercalate "\n\n" blocks

/-- The write loop (lines 166-173): every `files_content` entry in insertion
order except `00-enums.graphql`, paired with the text written for it. -/
def outputs (fs : Files) : List (String × String) :=
  (fs.filter (fun kv => kv.1 ≠ "00-enums.graphql")).map
    (fun kv => (kv.1, writeContent kv.1 kv.2))

/-- Observable filesystem events of `split_schema()`. -/
inductive Ev where
  | mkdirEv : String → Ev
  | readEv : String → Ev
  | writeEv : String → String → Ev
deriving DecidableEq

def Ev.isWrite : Ev → Bool
  | .writeEv _ _ => true
  | _ => false

/-- The I/O skeleton of `split_schema()` (lines 106-174): create the output
directory when absent, then attempt the read (`source = none` models
`FileNotFoundError`, which returns immediately), then write the category
files. -/
def split_schema_run (dirExists : Bool) (source : Option String) : List Ev :=
  (if dirExists then [] else [Ev.mkdirEv OUTPUT_DIR]) ++
  [Ev.readEv SOURCE_FILE] ++
  (match source with
   | none => []
   | some content =>
     (outputs (runBlocks (splitBlocks content.data))).map
       (fun kv => Ev.writeEv (OUTPUT_DIR ++ "/" ++ kv.1) kv.2))

/-! ### Specification-side helpers (proved to characterise the loop). -/

/-- The category a raw block is appended to (`none` when the block is
dropped as empty or as an `enum ` block). -/
def target (rawBlock : List Char) : Option String :=
  let block := strip rawBlock
  if block.isEmpty then none
  else if "enum ".data.isPrefixOf block then none
  else
    match classify block with
    | some filename => some filename
    | none =>
      if inStr "Game".data block then some "30-games.graphql"
      else if inStr "Player".data block then some "50-players.graphql"
      else if inStr "Venue".data block then some "20-venues.graphql"
      else some "99-mutations.graphql"

/-- The text actually appended for a raw block (patched only on the
classifier path into `30-games.graphql` with the marker present). -/
def emitText (rawBlock : List Char) : String :=
  let block := strip rawBlock
  match classify block with
  | some filename =>
    String.mk (if inStr "type Game @model".data block && filename = "30-games.graphql" then
      patchGame block else block)
  | none => String.mk block

/-- The texts a category receives from a block list, in order. -/
def assignedTo (n : String) (bs : List (List Char)) : List String :=
  (bs.filter (fun b => target b = some n)).map emitText

/-- A `files_content` value with the 11 keys in insertion order. -/
def build (a b c d e f g h i j k : List String) : Files :=
  [("10-entities.graphql", a), ("20-venues.graphql", b), ("30-games.graphql", c),
   ("40-tournaments.graphql", d), ("50-players.graphql", e), ("60-financials.graphql", f),
   ("80-scrapers.graphql", g), ("85-social.graphql", h), ("90-staff.graphql", i),
   ("99-mutations.graphql", j), ("00-enums.graphql", k)]

/-! ### Characterisation of the classification loop. -/

/-- The category names, in `FILE_MAPPINGS` declaration order. -/
def CATEGORY_NAMES : List String :=
  ["10-entities.graphql", "20-venues.graphql", "30-games.graphql", "40-tournaments.graphql",
   "50-players.graphql", "60-financials.graphql", "80-scrapers.graphql", "85-social.graphql",
   "90-staff.graphql", "99-mutations.graphql"]

theorem classify_mem (block : List Char) (f : String) (h : classify block = some f) :
    f ∈ CATEGORY_NAMES := by
  unfold classify at h
  rcases Option.map_eq_some'.mp h with ⟨kv, hfind, hfst⟩
  have hkv := List.mem_of_find?_eq_some hfind
  subst hfst
  fin_cases hkv <;> simp [CATEGORY_NAMES]

theorem target_mem (rawBlock : List Char) (f : String) (h : target rawBlock = some f) :
    f ∈ CATEGORY_NAMES := by
  simp only [target] at h
  split at h
  · exact absurd h (by simp)
  · split at h
    · exact absurd h (by simp)
    · split at h
      next fn hc =>
        injection h with h
        subst h
        exact classify_mem _ _ hc
      next hc =>
        split at h
        · injection h with h; subst h; simp [CATEGORY_NAMES]
        · split at h
          · injection h with h; subst h; simp [CATEGORY_NAMES]
          · split at h <;> (injection h with h; subst h; simp [CATEGORY_NAMES])

theorem processBlock_target (fs : Files) (rawBlock : List Char) :
    processBlock fs rawBlock =
      match target rawBlock with
      | none => fs
      | some n => appendTo fs n (emitText rawBlock) := by
  simp only [processBlock, target, emitText]
  cases h1 : (strip rawBlock).isEmpty with
  | true => simp [h1]
  | false =>
    cases h2 : "enum ".data.isPrefixOf (strip rawBlock) with
    | true => simp [h1, h2]
    | false =>
      cases h3 : classify (strip rawBlock) with
      | some fn => simp [h1, h2, h3]
      | none =>
        simp only [h1, h2, h3, Bool.false_eq_true, if_false]
        split_ifs <;> rfl

theorem assignedTo_nil (n : String) : assignedTo n [] = [] := rfl

theorem assignedTo_cons (n : String) (b : List Char) (bs : List (List Char)) :
    assignedTo n (b :: bs) =
      (if target b = some n then [emitText b] else []) ++ assignedTo n bs := by
  simp only [assignedTo, List.filter_cons]
  by_cases h : target b = some n
  · simp [h]
  · simp [h]

theorem itePair {α β : Type} (c : Prop) [Decidable c] (x : α) (u v : β) :
    (if c then (x, u) else (x, v)) = (x, if c then u else v) := by
  split <;> rfl

theorem appendTo_build (a b c d e f g h i j k : List String) (n t : String) :
    appendTo (build a b c d e f g h i j k) n t =
      build (if "10-entities.graphql" = n then a ++ [t] else a)
            (if "20-venues.graphql" = n then b ++ [t] else b)
            (if "30-games.graphql" = n then c ++ [t] else c)
            (if "40-tournaments.graphql" = n then d ++ [t] else d)
            (if "50-players.graphql" = n then e ++ [t] else e)
            (if "60-financials.graphql" = n then f ++ [t] else f)
            (if "80-scrapers.graphql" = n then g ++ [t] else g)
            (if "85-social.graphql" = n then h ++ [t] else h)
            (if "90-staff.graphql" = n then i ++ [t] else i)
            (if "99-mutations.graphql" = n then j ++ [t] else j)
            (if "00-enums.graphql" = n then k ++ [t] else k) := by
  simp only [appendTo, build, List.map_cons, List.map_nil, itePair]

theorem runAux (bs : List (List Char)) :
    ∀ a b c d e f g h i j k : List String,
      List.foldl processBlock (build a b c d e f g h i j k) bs =
        build (a ++ assignedTo "10-entities.graphql" bs)
              (b ++ assignedTo "20-venues.graphql" bs)
              (c ++ assignedTo "30-games.graphql" bs)
              (d ++ assignedTo "40-tournaments.graphql" bs)
              (e ++ assignedTo "50-players.graphql" bs)
              (f ++ assignedTo "60-financials.graphql" bs)
              (g ++ assignedTo "80-scrapers.graphql" bs)
              (h ++ assignedTo "85-social.graphql" bs)
              (i ++ assignedTo "90-staff.graphql" bs)
              (j ++ assignedTo "99-mutations.graphql" bs)
              k := by
  induction bs with
  | nil => intro a b c d e f g h i j k; simp [assignedTo_nil]
  | cons blk bs ih =>
    intro a b c d e f g h i j k
    rw [List.foldl_cons, processBlock_target]
    cases htb : target blk with
    | none =>
      simp only []
      rw [ih]
      simp [assignedTo_cons, htb]
    | some n =>
      simp only []
      have hmem : n ∈ CATEGORY_NAMES := target_mem _ _ htb
      simp only [CATEGORY_NAMES, List.mem_cons, List.not_mem_nil, or_false] at hmem
      rcases hmem with rfl | rfl | rfl | rfl | rfl | rfl | rfl | rfl | rfl | rfl <;>
        (rw [appendTo_build, ih]; simp [assignedTo_cons, htb, List.append_assoc])

theorem runBlocks_eq (bs : List (List Char)) :
    runBlocks bs =
      build (assignedTo "10-entities.graphql" bs)
            (assignedTo "20-venues.graphql" bs)
            (assignedTo "30-games.graphql" bs)
            (assignedTo "40-tournaments.graphql" bs)
            (assignedTo "50-players.graphql" bs)
            (assignedTo "60-financials.graphql" bs)
            (assignedTo "80-scrapers.graphql" bs)
            (assignedTo "85-social.graphql" bs)
            (assignedTo "90-staff.graphql" bs)
            (assignedTo "99-mutations.graphql" bs)
            [] := by
  have h0 : initFiles = build [] [] [] [] [] [] [] [] [] [] [] := by decide
  rw [runBlocks, h0, runAux]
  simp

/-! ### First-match characterisations and the comment-anchoring argument. -/

theorem find?_eq_some_split {α : Type} (p : α → Bool) (l : List α) (a : α) :
    l.find? p = some a ↔
      ∃ l₁ l₂, l = l₁ ++ a :: l₂ ∧ p a = true ∧ ∀ x ∈ l₁, p x = false := by
  induction l with
  | nil => simp
  | cons x xs ih =>
    cases hpx : p x with
    | true =>
      rw [List.find?_cons_of_pos _ hpx]
      constructor
      · intro h
        injection h with h
        subst h
        exact ⟨[], xs, rfl, hpx, by simp⟩
      · rintro ⟨l₁, l₂, heq, hpa, hall⟩
        cases l₁ with
        | nil =>
          simp only [List.nil_append, List.cons.injEq] at heq
          rw [heq.1]
        | cons y ys =>
          simp only [List.cons_append, List.cons.injEq] at heq
          have hy := hall y (by simp)
          rw [← heq.1] at hy
          rw [hy] at hpx
          exact Bool.noConfusion hpx
    | false =>
      rw [List.find?_cons_of_neg _ (by simp [hpx]), ih]
      constructor
      · rintro ⟨l₁, l₂, heq, hpa, hall⟩
        refine ⟨x :: l₁, l₂, by rw [heq, List.cons_append], hpa, ?_⟩
        intro z hz
        rcases List.mem_cons.mp hz with rfl | hz
        · exact hpx
        · exact hall z hz
      · rintro ⟨l₁, l₂, heq, hpa, hall⟩
        cases l₁ with
        | nil =>
          simp only [List.nil_append, List.cons.injEq] at heq
          rw [heq.1] at hpx
          rw [hpa] at hpx
          exact Bool.noConfusion hpx
        | cons y ys =>
          simp only [List.cons_append, List.cons.injEq] at heq
          refine ⟨ys, l₂, heq.2, hpa, ?_⟩
          intro z hz
          exact hall z (by simp [hz])

theorem any_iff_first {α : Type} (p : α → Bool) (l : List α) :
    l.any p = true ↔
      ∃ l₁ a l₂, l = l₁ ++ a :: l₂ ∧ p a = true ∧ ∀ x ∈ l₁, p x = false := by
  induction l with
  | nil => simp
  | cons x xs ih =>
    cases hpx : p x with
    | true =>
      simp only [List.any_cons, hpx, Bool.true_or, true_iff]
      exact ⟨[], x, xs, rfl, hpx, by simp⟩
    | false =>
      simp only [List.any_cons, hpx, Bool.false_or]
      rw [ih]
      constructor
      · rintro ⟨l₁, a, l₂, heq, hpa, hall⟩
        refine ⟨x :: l₁, a, l₂, by rw [heq, List.cons_append], hpa, ?_⟩
        intro z hz
        rcases List.mem_cons.mp hz with rfl | hz
        · exact hpx
        · exact hall z hz
      · rintro ⟨l₁, a, l₂, heq, hpa, hall⟩
        cases l₁ with
        | nil =>
          simp only [List.nil_append, List.cons.injEq] at heq
          rw [heq.1] at hpx
          rw [hpa] at hpx
          exact Bool.noConfusion hpx
        | cons y ys =>
          simp only [List.cons_append, List.cons.injEq] at heq
          exact ⟨ys, a, l₂, heq.2, hpa, fun z hz => hall z (by simp [hz])⟩

/-- Every pattern of the table demands `'t'` or `'i'` as very first character
of the block (the `^` anchor is at the absolute start of the string). -/
def patFirstOk (p : Pat) : Bool :=
  match p with
  | .lit s | .litWB s => s.data.head? = some 't' || s.data.head? = some 'i'
  | .typeStar _ => true

theorem allPatsOk : (FILE_MAPPINGS.all (fun kv => kv.2.all patFirstOk)) = true := by decide

theorem litNoHash (s : String) (cs : List Char)
    (hp : s.data.head? = some 't' ∨ s.data.head? = some 'i') :
    s.data.isPrefixOf ('#' :: cs) = false := by
  cases hs : s.data with
  | nil => rw [hs] at hp; simp at hp
  | cons c rest =>
    rw [hs] at hp
    have hp' : c = 't' ∨ c = 'i' := by simpa using hp
    have hc : (c == '#') = false := by rcases hp' with rfl | rfl <;> decide
    simp [List.isPrefixOf, hc]

theorem patFirstOk_hash (p : Pat) (hp : patFirstOk p = true) (cs : List Char) :
    patMatch p ('#' :: cs) = false := by
  cases p with
  | lit s =>
    simp only [patFirstOk] at hp
    exact litNoHash s cs (by simpa using hp)
  | litWB s =>
    simp only [patFirstOk] at hp
    simp only [patMatch]
    rw [litNoHash s cs (by simpa using hp)]
    simp
  | typeStar s =>
    simp only [patMatch]
    have ht : (('t' : Char) == '#') = false := by decide
    simp [List.isPrefixOf, ht]

/-- A block whose (stripped) text begins with a comment character matches no
pattern of the table, hence falls through to the fallback resolver. -/
theorem classify_hash (cs : List Char) : classify ('#' :: cs) = none := by
  unfold classify
  rw [Option.map_eq_none', List.find?_eq_none]
  intro kv hkv hany
  rw [anyMatch, List.any_eq_true] at hany
  rcases hany with ⟨p, hp, hmatch⟩
  have h1 := List.all_eq_true.mp allPatsOk kv hkv
  have hok := List.all_eq_true.mp h1 p hp
  rw [patFirstOk_hash p hok cs] at hmatch
  exact Bool.noConfusion hmatch

/-! ### Claims. -/

/-- C1: for every input document's block list, each extracted block that is
non-empty after trimming and does not begin with `enum ` is appended (as its
emitted text, which is the trimmed block except for the single games patch)
to exactly one category's list: `target` is a function picking that single
category, the final `files_content` equals, category by category, exactly
the blocks whose `target` is that category (so the union of all lists is the
set of kept blocks, with nothing appended twice or dropped), and every
non-empty non-enum block does get a category. -/
theorem C1_partition (bs : List (List Char)) :
    runBlocks bs =
      build (assignedTo "10-entities.graphql" bs) (assignedTo "20-venues.graphql" bs)
        (assignedTo "30-games.graphql" bs) (assignedTo "40-tournaments.graphql" bs)
        (assignedTo "50-players.graphql" bs) (assignedTo "60-financials.graphql" bs)
        (assignedTo "80-scrapers.graphql" bs) (assignedTo "85-social.graphql" bs)
        (assignedTo "90-staff.graphql" bs) (assignedTo "99-mutations.graphql" bs) [] ∧
    ∀ blk : List Char, (strip blk).isEmpty = false →
      "enum ".data.isPrefixOf (strip blk) = false →
      ∃ n, target blk = some n ∧ n ∈ CATEGORY_NAMES := by
  refine ⟨runBlocks_eq bs, ?_⟩
  intro blk h1 h2
  have hsome : ∃ n, target blk = some n := by
    rcases h3 : classify (strip blk) with _ | fn
    · simp only [target, h1, h2, h3, Bool.false_eq_true, if_false]
      split_ifs <;> exact ⟨_, rfl⟩
    · exact ⟨fn, by simp [target, h1, h2, h3]⟩
  rcases hsome with ⟨n, hn⟩
  exact ⟨n, hn, target_mem _ _ hn⟩

theorem C1_partition_witness :
    ∃ n, target "type Query \x7b q: ID \x7d".data = some n ∧ n ∈ CATEGORY_NAMES :=
  (C1_partition []).2 "type Query \x7b q: ID \x7d".data (by decide) (by decide)

/-- Common witness construction for order preservation: the blocks routed to
a category form a filtered (hence order-preserving) subsequence of the
input. -/
theorem sub_of_assigned (n : String) (bs : List (List Char)) :
    ∃ sub : List (List Char), List.Sublist sub bs ∧
      (∀ x ∈ sub, target x = some n) ∧ assignedTo n bs = sub.map emitText := by
  refine ⟨bs.filter (fun b => target b = some n), List.filter_sublist bs, ?_, rfl⟩
  intro x hx
  have := (List.mem_filter.mp hx).2
  simpa using this

/-- C6: within any category, the relative order of the blocks appended to
that category equals their relative order in the source block list: every
entry of the final `files_content` is the image under the emitted-text map
of an order-preserving sublist of the input blocks, consisting exactly of
the blocks targeted at that category. -/
theorem C6_order (bs : List (List Char)) :
    ∀ kv ∈ runBlocks bs, ∃ sub : List (List Char),
      List.Sublist sub bs ∧ (∀ x ∈ sub, target x = some kv.1) ∧ kv.2 = sub.map emitText := by
  intro kv hkv
  rw [runBlocks_eq] at hkv
  simp only [build, List.mem_cons, List.not_mem_nil, or_false] at hkv
  rcases hkv with rfl | rfl | rfl | rfl | rfl | rfl | rfl | rfl | rfl | rfl | rfl <;>
    first
      | exact sub_of_assigned _ bs
      | exact ⟨[], List.nil_sublist bs, by simp, rfl⟩

theorem C6_order_witness :
    ∃ sub : List (List Char),
      List.Sublist sub ["type Query \x7b q: ID \x7d".data] ∧
      (∀ x ∈ sub, target x = some "99-mutations.graphql") ∧
      ["type Query \x7b q: ID \x7d"] = sub.map emitText :=
  C6_order ["type Query \x7b q: ID \x7d".data]
    ("99-mutations.graphql", ["type Query \x7b q: ID \x7d"]) (by decide)

/-- C2 counterexample: an enum declaration whose keyword is followed by a
tab instead of a space (`"enum\tStatus ..."`) is extracted as a block whose
top-level declaration keyword is `enum`, but the script's
`startswith("enum ")` test misses it: it is assigned to the catch-all
category and appears in that category's written output. -/
theorem C2_counterexample :
    (splitBlocks "type Query \x7b q: ID \x7d\n\nenum\tStatus \x7b A B \x7d\n".data).map
        (fun b => String.mk (strip b)) =
      ["type Query \x7b q: ID \x7d", "", "enum\tStatus \x7b A B \x7d"] ∧
    target "enum\tStatus \x7b A B \x7d".data = some "99-mutations.graphql" ∧
    lookupList
        (runBlocks (splitBlocks "type Query \x7b q: ID \x7d\n\nenum\tStatus \x7b A B \x7d\n".data))
        "99-mutations.graphql" =
      ["type Query \x7b q: ID \x7d", "enum\tStatus \x7b A B \x7d"] ∧
    (outputs
        (runBlocks
          (splitBlocks "type Query \x7b q: ID \x7d\n\nenum\tStatus \x7b A B \x7d\n".data))).any
      (fun kv => inStr "enum\tStatus".data kv.2.data) = true := by
  decide

/-- C2 (amended): every block whose trimmed text begins with `enum ` is
never assigned to any category (its target is `none`) and leaves the
`files_content` state untouched, hence appears in no output file. -/
theorem C2_amended (rawBlock : List Char) (fs : Files)
    (h : "enum ".data.isPrefixOf (strip rawBlock) = true) :
    target rawBlock = none ∧ processBlock fs rawBlock = fs := by
  have hne : (strip rawBlock).isEmpty = false := by
    cases hs : strip rawBlock with
    | nil => rw [hs] at h; exact absurd h (by decide)
    | cons c cs => rfl
  constructor
  · simp [target, hne, h]
  · simp [processBlock, hne, h]

theorem C2_amended_witness :
    target "enum Status \x7b A B \x7d".data = none ∧
      processBlock initFiles "enum Status \x7b A B \x7d".data = initFiles :=
  C2_amended _ initFiles (by decide)

/-- C3: classification walks the categories in `FILE_MAPPINGS` declaration
order and assigns the block to the first category containing a matching
pattern, stopping immediately (conjunct 1, a first-match characterisation of
`classify`); within a category there is likewise a first matching pattern in
declared order (conjunct 2); and because every pattern is anchored to the
absolute start of the trimmed block text, a block beginning with an attached
comment line (`'#'`) matches no pattern and falls through to the fallback
resolver (conjunct 3). -/
theorem C3_classifier (block : List Char) :
    (∀ fname, classify block = some fname ↔
      ∃ pre pats post, FILE_MAPPINGS = pre ++ (fname, pats) :: post ∧
        anyMatch pats block = true ∧ ∀ kv ∈ pre, anyMatch kv.2 block = false) ∧
    (∀ pats : List Pat, anyMatch pats block = true ↔
      ∃ l₁ p l₂, pats = l₁ ++ p :: l₂ ∧ patMatch p block = true ∧
        ∀ q ∈ l₁, patMatch q block = false) ∧
    (∀ cs, block = '#' :: cs → classify block = none) := by
  refine ⟨?_, ?_, ?_⟩
  · intro fname
    unfold classify
    constructor
    · intro h
      rcases Option.map_eq_some'.mp h with ⟨kv, hfind, hfst⟩
      rcases (find?_eq_some_split _ _ _).mp hfind with ⟨pre, post, heq, hkv, hpre⟩
      refine ⟨pre, kv.2, post, ?_, hkv, hpre⟩
      rw [heq, ← hfst]
    · rintro ⟨pre, pats, post, heq, hmatch, hpre⟩
      have hfind : FILE_MAPPINGS.find? (fun kv => anyMatch kv.2 block) = some (fname, pats) :=
        (find?_eq_some_split _ _ _).mpr ⟨pre, post, heq, hmatch, hpre⟩
      rw [hfind]
      rfl
  · intro pats
    exact any_iff_first _ pats
  · rintro cs rfl
    exact classify_hash cs

theorem C3_classifier_witness :
    classify "# comment\ntype Entity".data = none :=
  (C3_classifier "# comment\ntype Entity".data).2.2 " comment\ntype Entity".data (by decide)

/-- The index returned by `lastBraceIdx` really is the last closing brace:
before it the list is unchanged, at it sits `'\x7d'`, and after it no
further `'\x7d'` occurs; `none` means no closing brace at all. -/
theorem lastBrace_spec (cs : List Char) :
    (lastBraceIdx cs = none → '}' ∉ cs) ∧
    (∀ i, lastBraceIdx cs = some i →
      (cs.drop i).head? = some '}' ∧ '}' ∉ cs.drop (i + 1)) := by
  induction cs with
  | nil => simp [lastBraceIdx]
  | cons c cs ih =>
    constructor
    · intro h
      simp only [lastBraceIdx] at h
      cases hl : lastBraceIdx cs with
      | some i => rw [hl] at h; exact absurd h (by simp)
      | none =>
        rw [hl] at h
        by_cases hc : c = '}'
        · rw [if_pos hc] at h; exact absurd h (by simp)
        · rw [if_neg hc] at h
          simp only [List.mem_cons, not_or]
          exact ⟨fun hcc => hc hcc.symm, ih.1 hl⟩
    · intro i h
      simp only [lastBraceIdx] at h
      cases hl : lastBraceIdx cs with
      | some j =>
        rw [hl] at h
        injection h with h
        subst h
        have hj := ih.2 j hl
        simpa using hj
      | none =>
        rw [hl] at h
        by_cases hc : c = '}'
        · rw [if_pos hc] at h
          injection h with h
          subst h
          subst hc
          simpa using ih.1 hl
        · rw [if_neg hc] at h
          exact absurd h (by simp)

/-- C4 counterexample: the document
`"union GameU = A # type Game @model \x7b x \x7d\n\ntype Query ..."` yields a
block containing the marker `type Game @model` and containing a closing
brace, which is assigned to the games category (by the fallback resolver,
since it matches no pattern but contains `"Game"`), yet it is appended
unmodified — not with the injection fragment spliced in before its last
closing brace as the claim requires for every games-assigned
marker-containing block. -/
theorem C4_counterexample :
    (splitBlocks
        "union GameU = A # type Game @model \x7b x \x7d\n\ntype Query \x7b q: ID \x7d\n".data).map
        (fun b => String.mk (strip b)) =
      ["union GameU = A # type Game @model \x7b x \x7d", "", "type Query \x7b q: ID \x7d"] ∧
    target "union GameU = A # type Game @model \x7b x \x7d".data = some "30-games.graphql" ∧
    inStr "type Game @model".data
      (strip "union GameU = A # type Game @model \x7b x \x7d".data) = true ∧
    lastBraceIdx (strip "union GameU = A # type Game @model \x7b x \x7d".data) = some 39 ∧
    emitText "union GameU = A # type Game @model \x7b x \x7d".data =
      String.mk (strip "union GameU = A # type Game @model \x7b x \x7d".data) ∧
    emitText "union GameU = A # type Game @model \x7b x \x7d".data ≠
      String.mk (patchGame (strip "union GameU = A # type Game @model \x7b x \x7d".data)) := by
  decide

/-- C4 (amended): for every block assigned to the games category by a
Category-Table pattern match (the classifier path) whose text contains the
marker `type Game @model`, the appended text equals the block with
`GAME_ADDITIONS` inserted immediately before the block's last closing brace,
the brace and everything after it unchanged; if the block contains no
closing brace it is appended unmodified with no error; the splice is built
exactly once.  (Blocks routed to the games category by the fallback
resolver are appended unmodified — the counterexample — so the claim is
restricted to classifier-assigned blocks.) -/
theorem C4_amended (rawBlock : List Char)
    (hcls : classify (strip rawBlock) = some "30-games.graphql")
    (hmark : inStr "type Game @model".data (strip rawBlock) = true) :
    (lastBraceIdx (strip rawBlock) = none →
      emitText rawBlock = String.mk (strip rawBlock) ∧ '}' ∉ strip rawBlock) ∧
    (∀ i, lastBraceIdx (strip rawBlock) = some i →
      emitText rawBlock =
        String.mk ((strip rawBlock).take i ++ GAME_ADDITIONS.data ++ (strip rawBlock).drop i) ∧
      ((strip rawBlock).drop i).head? = some '}' ∧ '}' ∉ (strip rawBlock).drop (i + 1)) := by
  have hemit : emitText rawBlock = String.mk (patchGame (strip rawBlock)) := by
    simp [emitText, hcls, hmark]
  constructor
  · intro h
    rw [hemit]
    unfold patchGame
    rw [h]
    exact ⟨rfl, (lastBrace_spec _).1 h⟩
  · intro i h
    rw [hemit]
    unfold patchGame
    rw [h]
    exact ⟨rfl, (lastBrace_spec _).2 i h⟩

theorem C4_amended_witness :
    emitText "type Game @model \x7b id: ID! \x7d".data =
      String.mk ((strip "type Game @model \x7b id: ID! \x7d".data).take 27 ++
        GAME_ADDITIONS.data ++ (strip "type Game @model \x7b id: ID! \x7d".data).drop 27) :=
  (((C4_amended "type Game @model \x7b id: ID! \x7d".data (by decide) (by decide)).2)
    27 (by decide)).1

set_option maxRecDepth 100000 in
/-- C5: end-to-end run on the specific source document of the spec: the
entities category receives the Entity block; the games category receives the
Game block with `GAME_ADDITIONS` spliced in before its closing brace; the
enum block appears in no category and no written file; the catch-all
mutations category receives the Query block. -/
theorem C5_endToEnd :
    runBlocks
        (splitBlocks
          "type Entity @model \x7b id: ID! \x7d\n\ntype Game @model \x7b id: ID! \x7d\n\nenum Status \x7b A B \x7d\n\ntype Query \x7b ping: String \x7d\n".data) =
      build ["type Entity @model \x7b id: ID! \x7d"] []
        ["type Game @model \x7b id: ID! " ++ GAME_ADDITIONS ++ "\x7d"] [] [] [] [] [] []
        ["type Query \x7b ping: String \x7d"] [] ∧
    (outputs
        (runBlocks
          (splitBlocks
            "type Entity @model \x7b id: ID! \x7d\n\ntype Game @model \x7b id: ID! \x7d\n\nenum Status \x7b A B \x7d\n\ntype Query \x7b ping: String \x7d\n".data))).all
      (fun kv => !(inStr "enum Status".data kv.2.data)) = true := by
  decide

/-- C7: for a block the classifier does not match (and which survives the
empty and `enum ` skips), the fallback resolver checks substring containment
of `"Game"`, then `"Player"`, then `"Venue"` in this fixed order, assigning
on the first hit and to the catch-all category when none hits; in
particular a no-match block containing `"Player"` but not `"Game"` goes to
the players category even when it also contains `"Venue"`; the appended
text is the trimmed block, unmodified. -/
theorem C7_fallback (rawBlock : List Char)
    (hne : (strip rawBlock).isEmpty = false)
    (henum : "enum ".data.isPrefixOf (strip rawBlock) = false)
    (hcls : classify (strip rawBlock) = none) :
    (inStr "Game".data (strip rawBlock) = true → target rawBlock = some "30-games.graphql") ∧
    (inStr "Game".data (strip rawBlock) = false → inStr "Player".data (strip rawBlock) = true →
      target rawBlock = some "50-players.graphql") ∧
    (inStr "Game".data (strip rawBlock) = false → inStr "Player".data (strip rawBlock) = false →
      inStr "Venue".data (strip rawBlock) = true → target rawBlock = some "20-venues.graphql") ∧
    (inStr "Game".data (strip rawBlock) = false → inStr "Player".data (strip rawBlock) = false →
      inStr "Venue".data (strip rawBlock) = false →
      target rawBlock = some "99-mutations.graphql") ∧
    emitText rawBlock = String.mk (strip rawBlock) := by
  refine ⟨fun hG => ?_, fun hG hP => ?_, fun hG hP hV => ?_, fun hG hP hV => ?_,
    by simp [emitText, hcls]⟩
  · simp [target, hne, henum, hcls, hG]
  · simp [target, hne, henum, hcls, hG, hP]
  · simp [target, hne, henum, hcls, hG, hP, hV]
  · simp [target, hne, henum, hcls, hG, hP, hV]

theorem C7_fallback_witness :
    target "misc Player Venue thing".data = some "50-players.graphql" :=
  (C7_fallback "misc Player Venue thing".data (by decide) (by decide) (by decide)).2.1
    (by decide) (by decide)

/-- C8: the writer emits one output per category in `FILE_MAPPINGS`
declaration order — exactly `CATEGORY_NAMES` — skipping the placeholder
`00-enums.graphql` even though it is present in the in-memory table; each
output is the header line naming the category, the banner line, a blank
line, and the category's blocks joined by blank lines (`writeContent`). -/
theorem C8_writer (bs : List (List Char)) :
    outputs (runBlocks bs) =
      CATEGORY_NAMES.map (fun n => (n, writeContent n (lookupList (runBlocks bs) n))) ∧
    (∀ kv ∈ outputs (runBlocks bs), kv.1 ≠ "00-enums.graphql") ∧
    ("00-enums.graphql", ([] : List String)) ∈ runBlocks bs := by
  rw [runBlocks_eq]
  refine ⟨rfl, ?_, by simp [build]⟩
  intro kv hkv
  simp [outputs, build, writeContent, CATEGORY_NAMES] at hkv
  rcases hkv with rfl | rfl | rfl | rfl | rfl | rfl | rfl | rfl | rfl | rfl <;> simp

theorem C8_writer_witness :
    ("10-entities.graphql",
        writeContent "10-entities.graphql" (lookupList (runBlocks []) "10-entities.graphql")).1 ≠
      "00-enums.graphql" :=
  (C8_writer []).2.1 _ (by decide)

/-- C9: if the source document cannot be read, the run aborts having written
no category file; the output-directory creation (performed only when the
directory does not yet exist) precedes the read attempt, so the directory
side effect persists after the abort. -/
theorem C9_abort (dirExists : Bool) :
    ((split_schema_run dirExists none).all (fun e => !e.isWrite)) = true ∧
    split_schema_run false none = [Ev.mkdirEv OUTPUT_DIR, Ev.readEv SOURCE_FILE] ∧
    split_schema_run true none = [Ev.readEv SOURCE_FILE] := by
  cases dirExists <;> exact ⟨by decide, by decide, by decide⟩

theorem lookup_build_99 (a b c d e f g h i j k : List String) :
    lookupList (build a b c d e f g h i j k) "99-mutations.graphql" = j := rfl

/-- C10 counterexample: for the document
`"enum Status \x7b A \x7d\n\ntype Query ..."` the text before the first
declaration boundary is the enum declaration itself: it is non-empty after
trimming, matches no category pattern and contains none of `"Game"`,
`"Player"`, `"Venue"`, yet it is dropped (it begins with `enum `) and
appears in no category list, contradicting the claim that it is written
into the catch-all category. -/
theorem C10_counterexample :
    (splitBlocks "enum Status \x7b A \x7d\n\ntype Query \x7b q: ID \x7d\n".data).head? =
      some "enum Status \x7b A \x7d".data ∧
    (strip "enum Status \x7b A \x7d".data).isEmpty = false ∧
    classify (strip "enum Status \x7b A \x7d".data) = none ∧
    inStr "Game".data (strip "enum Status \x7b A \x7d".data) = false ∧
    inStr "Player".data (strip "enum Status \x7b A \x7d".data) = false ∧
    inStr "Venue".data (strip "enum Status \x7b A \x7d".data) = false ∧
    (runBlocks (splitBlocks "enum Status \x7b A \x7d\n\ntype Query \x7b q: ID \x7d\n".data)).all
      (fun kv => !(kv.2.contains (String.mk (strip "enum Status \x7b A \x7d".data)))) = true := by
  decide

/-- C10 (amended): for every input document whose text before the first
declaration boundary is non-empty after trimming, does not begin with
`enum ` after trimming, matches no category pattern and contains none of
`"Game"`, `"Player"`, `"Venue"`, that leading text becomes its own block
and is appended to the catch-all category `99-mutations.graphql` (hence
written into its output) rather than dropped.  (The no-`enum `-prefix
condition is forced by the counterexample: enum-leading documents have
their leading text dropped.) -/
theorem C10_amended (content b0 : List Char) (rest : List (List Char))
    (hsplit : splitBlocks content = b0 :: rest)
    (hne : (strip b0).isEmpty = false)
    (henum : "enum ".data.isPrefixOf (strip b0) = false)
    (hcls : classify (strip b0) = none)
    (hG : inStr "Game".data (strip b0) = false)
    (hP : inStr "Player".data (strip b0) = false)
    (hV : inStr "Venue".data (strip b0) = false) :
    String.mk (strip b0) ∈
      lookupList (runBlocks (splitBlocks content)) "99-mutations.graphql" := by
  have htgt : target b0 = some "99-mutations.graphql" := by
    simp [target, hne, henum, hcls, hG, hP, hV]
  have hemit : emitText b0 = String.mk (strip b0) := by
    simp [emitText, hcls]
  rw [hsplit, runBlocks_eq, lookup_build_99, assignedTo_cons, htgt]
  simp [hemit]

theorem C10_amended_witness :
    String.mk (strip "# banner".data) ∈
      lookupList
        (runBlocks (splitBlocks "# banner\n\ntype Query \x7b ping: String \x7d\n".data))
        "99-mutations.graphql" :=
  C10_amended "# banner\n\ntype Query \x7b ping: String \x7d\n".data "# banner".data
    ["\n".data, "\ntype Query \x7b ping: String \x7d\n".data]
    (by decide) (by decide) (by decide) (by decide) (by decide) (by decide) (by decide)
